import Mathlib

/-!
Verification of the master-bias combination logic of the
ccd-reduction-and-photometry-guide repository
(notebook `02-04-Combine-bias-images-to-make-master.ipynb`).

The notebook's only algorithmic content is two invocations of the external
`ccdproc.combine` routine (cells 9 and 15), each followed by tagging the
result with a `combined = True` metadata key.  The combination algorithm
itself lives in the external library, so it is modelled here from the
specification (spec.md §4.1 algorithm, §9 configuration struct
`{central_estimator: median|mean, dispersion_estimator: mad_std|std,
low_thresh, high_thresh, memory_limit}`).  Pixel values are embedded as
rationals; the floating-point `mad_std` scale constant is embedded as the
rational with the same decimal expansion as the double used by astropy.
-/

instance {ε α : Type} [DecidableEq ε] [DecidableEq α] : DecidableEq (Except ε α) := fun x y =>
  match x, y with
  | .error a, .error b =>
      if h : a = b then .isTrue (by rw [h])
      else .isFalse (by intro hh; cases hh; exact h rfl)
  | .error _, .ok _ => .isFalse (by intro hh; cases hh)
  | .ok _, .error _ => .isFalse (by intro hh; cases hh)
  | .ok a, .ok b =>
      if h : a = b then .isTrue (by rw [h])
      else .isFalse (by intro hh; cases hh; exact h rfl)

/-- Insert a value into a sorted list of rationals, keeping it sorted. -/
def insertSorted (a : ℚ) : List ℚ → List ℚ
  | [] => [a]
  | b :: t => if a ≤ b then a :: b :: t else b :: insertSorted a t

/-- Sorting a list of rationals ascending (the sample ordering used by the
median computation), by insertion sort. -/
def qsort : List ℚ → List ℚ
  | [] => []
  | a :: t => insertSorted a (qsort t)

/-- Modelled from the spec: the robust central estimate `median` of §4.1
step 2 (the behavior of `np.ma.median` on an unmasked 1-D sample): middle
element of the sorted sample for odd length, average of the two middle
elements for even length.  The empty sample (never produced by `combine`,
which guards empty stacks) is given the junk value 0. -/
def median (l : List ℚ) : ℚ :=
  let s := qsort l
  if l.length % 2 = 1 then s.getD (l.length / 2) 0
  else if l.length = 0 then 0
  else (s.getD (l.length / 2 - 1) 0 + s.getD (l.length / 2) 0) / 2

/-- Arithmetic mean of a sample (spec §4.1 step 4).  Rational division by
zero yields 0, so the empty-sample value is 0; `combine` only applies it to
samples drawn from a non-empty stack. -/
def mean (l : List ℚ) : ℚ :=
  l.sum / l.length

/-- Median absolute deviation of a sample: median of absolute deviations
from the sample median (spec glossary). -/
def mad (l : List ℚ) : ℚ :=
  median (l.map (fun v => |v - median l|))

/-- Scale factor turning the MAD into an estimate of the standard deviation
under normality: the rational with the decimal expansion of the double
`1 / Phi^-1(3/4)` used by `astropy.stats.mad_std`. -/
def madScale : ℚ :=
  1.482602218505602

/-- Modelled from the spec: the robust dispersion estimate of §4.1 step 2,
"median absolute deviation scaled to be comparable to a standard
deviation" (`astropy.stats.mad_std`). -/
def madStd (l : List ℚ) : ℚ :=
  madScale * mad l

/-- Population variance of a sample (square of `np.ma.std` with its default
`ddof = 0`), used when the dispersion estimator is the plain standard
deviation.  Kept as the variance so the development stays inside ℚ; the
rejection test compares squares. -/
def variance (l : List ℚ) : ℚ :=
  (l.map (fun v => (v - mean l) ^ 2)).sum / l.length

/-- The recognized central estimators (spec §9 configuration struct). -/
inductive CenterFunc where
  | median
  | mean
deriving DecidableEq, Repr

/-- The recognized dispersion estimators (spec §9 configuration struct):
`mad_std`, or the plain (masked) standard deviation, the default of the
`combine` contract. -/
inductive DevFunc where
  | madStd
  | std
deriving DecidableEq, Repr

/-- Configuration of one `combine` run, spec §9: central estimator,
dispersion estimator and the two positive rejection thresholds.  The
memory limit does not enter the per-pixel arithmetic; it only selects the
chunked evaluation strategy, modelled separately by `combineChunked`. -/
structure Config where
  low : ℚ
  high : ℚ
  center : CenterFunc
  dev : DevFunc
deriving DecidableEq, Repr

/-- Central estimate of a sample under a configured estimator. -/
def centerOf (c : CenterFunc) (l : List ℚ) : ℚ :=
  match c with
  | .median => median l
  | .mean => mean l

/-- Modelled from the spec: §4.1 step 3, the rejection test.  A sample
value `v` is rejected when `v < center - low * dispersion` or
`v > center + high * dispersion`.  For the `std` estimator the comparison
against `thresh * sqrt(variance)` is embedded exactly by comparing squares,
which is equivalent for the nonnegative thresholds of the contract
(spec §4.1: the thresholds are positive multipliers). -/
def rejected (cfg : Config) (l : List ℚ) (v : ℚ) : Bool :=
  let c := centerOf cfg.center l
  match cfg.dev with
  | .madStd =>
      decide (v < c - cfg.low * madStd l) || decide (c + cfg.high * madStd l < v)
  | .std =>
      (decide (v < c) && decide (cfg.low ^ 2 * variance l < (c - v) ^ 2)) ||
      (decide (c < v) && decide (cfg.high ^ 2 * variance l < (v - c) ^ 2))

/-- The non-rejected values of a per-pixel sample (spec §4.1 step 4). -/
def retainedVals (cfg : Config) (l : List ℚ) : List ℚ :=
  l.filter (fun v => !rejected cfg l v)

/-- Modelled from the spec: §4.1 steps 1-5 for one pixel position.  The
output pixel is the arithmetic mean of the non-rejected values; when every
value is rejected the spec leaves the fallback policy open (§4.1 step 4,
§9), and this model documents the choice of the unclipped mean. -/
def clipPixel (cfg : Config) (l : List ℚ) : ℚ :=
  let r := retainedVals cfg l
  if r.length = 0 then mean l else mean r

/-- A Frame (spec §3): pixel array plus a metadata mapping.  The pixel
array is a rectangular list of rows of rationals; the metadata is an
association list, of which the claims only touch boolean-valued keys such
as `combined`. -/
structure Frame where
  data : List (List ℚ)
  meta : List (String × Bool)
deriving DecidableEq, Repr

/-- Number of columns of a frame: the length of its first row. -/
def ncols (f : Frame) : Nat :=
  (f.data.headD []).length

/-- The array shape of a frame, as (rows, columns). -/
def shape (f : Frame) : Nat × Nat :=
  (f.data.length, ncols f)

/-- Rectangularity of a frame's pixel list: every row has the length of
the first row.  This is the numpy array invariant of the source data,
which the list embedding must carry as a hypothesis. -/
def Rect (f : Frame) : Prop :=
  ∀ row ∈ f.data, row.length = ncols f

instance (f : Frame) : Decidable (Rect f) :=
  List.decidableBAll _ _

/-- The 1-D per-position sample of §4.1 step 1: the values of the stack's
frames at row `i`, column `j` (out-of-range positions read the junk value
0 and are never produced by `combine` on rectangular frames). -/
def sampleAt (stack : List Frame) (i j : Nat) : List ℚ :=
  stack.map (fun g => ((g.data.getD i []).getD j 0))

/-- Row `i` of the combined output: the clipped combination of the sample
at each of the `c` column positions. -/
def rowAt (cfg : Config) (stack : List Frame) (c i : Nat) : List ℚ :=
  (List.range c).map (fun j => clipPixel cfg (sampleAt stack i j))

/-- The combined pixel array: the per-pixel reduction applied at every
position of the first frame's shape. -/
def combinedData (cfg : Config) (stack : List Frame) : List (List ℚ) :=
  match stack with
  | [] => []
  | f :: _ => (List.range f.data.length).map (fun i => rowAt cfg stack (ncols f) i)

/-- The error taxonomy of spec §7 that the combine contract can surface. -/
inductive CombineError where
  | emptyStack
  | shapeMismatch
deriving DecidableEq, Repr

/-- Modelled from the spec: the `combine` contract of §4.1
(`ccdproc.combine`, the external routine invoked in cells 9 and 15).  An
empty stack fails with `EmptyStackError`; frames of differing shapes fail
with `ShapeMismatchError`; otherwise the output frame holds the per-pixel
clipped average and the canonical (first) input's metadata. -/
def combine (stack : List Frame) (cfg : Config) : Except CombineError Frame :=
  match stack with
  | [] => .error .emptyStack
  | f :: rest =>
      if (f :: rest).all (fun g => decide (shape g = shape f)) then
        .ok ⟨combinedData cfg (f :: rest), f.meta⟩
      else .error .shapeMismatch

/-- The provenance-tagging step of cells 9 and 15:
`combined_bias.meta['combined'] = True`, an association-list update that
makes `combined` resolve to `true`. -/
def setCombinedTrue (f : Frame) : Frame :=
  ⟨f.data, ("combined", true) :: f.meta⟩

/-- One full combination run of the notebook: `combine` followed by the
provenance tagging, as executed in cells 9 and 15. -/
def combineAndTag (stack : List Frame) (cfg : Config) : Except CombineError Frame :=
  (combine stack cfg).map setCombinedTrue

/-- The configuration of the Example 1 invocation (cell 9):
`method='average', sigma_clip_low_thresh=5, sigma_clip_high_thresh=5,
sigma_clip_func=np.ma.median, sigma_clip_dev_func=mad_std`. -/
def cfgExample1 : Config :=
  ⟨5, 5, .median, .madStd⟩

/-- The configuration of the Example 2 invocation (cell 15).  The cell
misspells the dispersion keyword as `signma_clip_dev_func=mad_std`, which
is not a recognized parameter of `combine`; the dispersion estimator is
therefore left at its default, the plain masked standard deviation, not
`mad_std`.  The thresholds and the central estimator
(`sigma_clip_func=np.ma.median`) are passed correctly. -/
def cfgExample2 : Config :=
  ⟨5, 5, .median, .std⟩

set_option linter.unusedVariables false in
/-- Chunked evaluation of the combined array, `k` rows of output per
chunk, starting at row `lo` with `rem` rows left to produce: spec §5's
row-block tiling of the reduction under the memory budget. -/
def chunkRows (cfg : Config) (stack : List Frame) (c k lo rem : Nat) :
    List (List ℚ) :=
  if h : rem = 0 ∨ k = 0 then []
  else
    (List.range (min k rem)).map (fun i => rowAt cfg stack c (lo + i)) ++
      chunkRows cfg stack c k (lo + min k rem) (rem - min k rem)
termination_by rem
decreasing_by
  push_neg at h
  omega

/-- Modelled from the spec: `combine` under a memory limit admitting only
`k` output rows per chunk (spec §5: the reduction is tiled over contiguous
row blocks; `mem_limit=350e6` in cells 9 and 15 selects this strategy). -/
def combineChunked (stack : List Frame) (cfg : Config) (k : Nat) :
    Except CombineError Frame :=
  match stack with
  | [] => .error .emptyStack
  | f :: rest =>
      if (f :: rest).all (fun g => decide (shape g = shape f)) then
        .ok ⟨chunkRows cfg (f :: rest) (ncols f) k 0 f.data.length, f.meta⟩
      else .error .shapeMismatch

/-! ### Supporting lemmas about the sample statistics -/

theorem mem_insertSorted {a x : ℚ} {l : List ℚ} :
    x ∈ insertSorted a l ↔ x = a ∨ x ∈ l := by
  induction l with
  | nil => simp [insertSorted]
  | cons b t ih =>
      simp only [insertSorted]
      split
      · simp [List.mem_cons]
      · simp only [List.mem_cons, ih]
        tauto

theorem length_insertSorted (a : ℚ) (l : List ℚ) :
    (insertSorted a l).length = l.length + 1 := by
  induction l with
  | nil => rfl
  | cons b t ih =>
      simp only [insertSorted]
      split
      · simp
      · simp [ih]

theorem mem_qsort {x : ℚ} {l : List ℚ} : x ∈ qsort l ↔ x ∈ l := by
  induction l with
  | nil => simp [qsort]
  | cons a t ih => simp [qsort, mem_insertSorted, ih]

theorem length_qsort (l : List ℚ) : (qsort l).length = l.length := by
  induction l with
  | nil => rfl
  | cons a t ih => simp [qsort, length_insertSorted, ih]

theorem getD_nonneg {l : List ℚ} (h : ∀ x ∈ l, 0 ≤ x) (i : Nat) :
    0 ≤ l.getD i 0 := by
  rcases Nat.lt_or_ge i l.length with hi | hi
  · rw [List.getD_eq_getElem _ _ hi]
    exact h _ (List.getElem_mem hi)
  · rw [List.getD_eq_default _ _ hi]

theorem median_nonneg {l : List ℚ} (h : ∀ x ∈ l, 0 ≤ x) : 0 ≤ median l := by
  have hq : ∀ x ∈ qsort l, 0 ≤ x := fun x hx => h x (mem_qsort.1 hx)
  unfold median
  split
  · exact getD_nonneg hq _
  · split
    · exact le_refl 0
    · have h1 := getD_nonneg hq (l.length / 2 - 1)
      have h2 := getD_nonneg hq (l.length / 2)
      positivity

theorem mad_nonneg (l : List ℚ) : 0 ≤ mad l := by
  apply median_nonneg
  intro x hx
  simp only [List.mem_map] at hx
  obtain ⟨v, _, rfl⟩ := hx
  exact abs_nonneg _

theorem madScale_nonneg : (0 : ℚ) ≤ madScale := by norm_num [madScale]

theorem madStd_nonneg (l : List ℚ) : 0 ≤ madStd l :=
  mul_nonneg madScale_nonneg (mad_nonneg l)

theorem variance_nonneg (l : List ℚ) : 0 ≤ variance l := by
  apply div_nonneg _ (Nat.cast_nonneg _)
  apply List.sum_nonneg
  intro x hx
  simp only [List.mem_map] at hx
  obtain ⟨v, _, rfl⟩ := hx
  positivity

/-! ### Constant (replicated) samples -/

theorem insertSorted_replicate (n : Nat) (v : ℚ) :
    insertSorted v (List.replicate n v) = List.replicate (n + 1) v := by
  cases n with
  | zero => rfl
  | succ m => simp [List.replicate_succ, insertSorted]

theorem qsort_replicate (n : Nat) (v : ℚ) :
    qsort (List.replicate n v) = List.replicate n v := by
  induction n with
  | zero => rfl
  | succ m ih =>
      rw [List.replicate_succ]
      show insertSorted v (qsort (List.replicate m v)) = _
      rw [ih, insertSorted_replicate, List.replicate_succ]

theorem getD_replicate_of_lt {n i : Nat} {v : ℚ} (hi : i < n) :
    (List.replicate n v).getD i 0 = v := by
  rw [List.getD_eq_getElem _ _ (by simpa using hi)]
  simp

theorem median_replicate {n : Nat} (hn : 0 < n) (v : ℚ) :
    median (List.replicate n v) = v := by
  unfold median
  rw [qsort_replicate]
  simp only [List.length_replicate]
  split
  · exact getD_replicate_of_lt (by omega)
  · split
    · omega
    · rw [getD_replicate_of_lt (by omega), getD_replicate_of_lt (by omega)]
      ring

theorem mean_replicate {n : Nat} (hn : 0 < n) (v : ℚ) :
    mean (List.replicate n v) = v := by
  have hn' : (n : ℚ) ≠ 0 := Nat.cast_ne_zero.2 (by omega)
  unfold mean
  rw [List.sum_replicate, List.length_replicate, nsmul_eq_mul, mul_comm,
    mul_div_assoc, div_self hn', mul_one]

theorem variance_replicate {n : Nat} (hn : 0 < n) (v : ℚ) :
    variance (List.replicate n v) = 0 := by
  unfold variance
  rw [mean_replicate hn, List.map_replicate]
  simp

theorem centerOf_replicate {n : Nat} (hn : 0 < n) (c : CenterFunc) (v : ℚ) :
    centerOf c (List.replicate n v) = v := by
  cases c with
  | median => exact median_replicate hn v
  | mean => exact mean_replicate hn v

theorem mad_replicate {n : Nat} (hn : 0 < n) (v : ℚ) :
    mad (List.replicate n v) = 0 := by
  unfold mad
  rw [median_replicate hn, List.map_replicate]
  simp [median_replicate hn]

theorem madStd_replicate {n : Nat} (hn : 0 < n) (v : ℚ) :
    madStd (List.replicate n v) = 0 := by
  rw [madStd, mad_replicate hn, mul_zero]

theorem rejected_replicate_self {n : Nat} (hn : 0 < n) (cfg : Config) (v : ℚ) :
    rejected cfg (List.replicate n v) v = false := by
  unfold rejected
  cases cfg.dev with
  | madStd => simp [centerOf_replicate hn, madStd_replicate hn]
  | std => simp [centerOf_replicate hn]

theorem retainedVals_replicate {n : Nat} (hn : 0 < n) (cfg : Config) (v : ℚ) :
    retainedVals cfg (List.replicate n v) = List.replicate n v := by
  unfold retainedVals
  apply List.filter_eq_self.2
  intro a ha
  rw [List.eq_of_mem_replicate ha]
  simp [rejected_replicate_self hn]

theorem clipPixel_replicate {n : Nat} (hn : 0 < n) (cfg : Config) (v : ℚ) :
    clipPixel cfg (List.replicate n v) = v := by
  unfold clipPixel
  rw [retainedVals_replicate hn]
  simp only [List.length_replicate]
  rw [if_neg (by omega)]
  exact mean_replicate hn v

theorem sampleAt_replicate (n : Nat) (f : Frame) (i j : Nat) :
    sampleAt (List.replicate n f) i j =
      List.replicate n ((f.data.getD i []).getD j 0) := by
  simp [sampleAt]

/-! ### Reconstructing a rectangular array from its entries -/

theorem map_range_getD (a : List ℚ) :
    (List.range a.length).map (fun j => a.getD j 0) = a := by
  induction a with
  | nil => rfl
  | cons x t ih =>
      rw [List.length_cons, List.range_succ_eq_map, List.map_cons, List.map_map]
      have htail : ((fun j => (x :: t).getD j 0) ∘ Nat.succ) = fun j => t.getD j 0 := by
        funext j
        simp
      rw [htail, ih]
      rfl

theorem map_range_rows (l : List (List ℚ)) (c : Nat)
    (h : ∀ row ∈ l, row.length = c) :
    (List.range l.length).map
      (fun i => (List.range c).map (fun j => (l.getD i []).getD j 0)) = l := by
  induction l with
  | nil => rfl
  | cons r t ih =>
      rw [List.length_cons, List.range_succ_eq_map, List.map_cons, List.map_map]
      have hr : r.length = c := h r (by simp)
      have hhead : (List.range c).map (fun j => ((r :: t).getD 0 []).getD j 0) = r := by
        rw [← hr]
        exact map_range_getD r
      have htail :
          ((fun i => (List.range c).map (fun j => ((r :: t).getD i []).getD j 0)) ∘
            Nat.succ) =
          fun i => (List.range c).map (fun j => (t.getD i []).getD j 0) := by
        funext i
        simp
      rw [hhead, htail, ih (fun row hrow => h row (List.mem_cons_of_mem _ hrow))]

/-! ### Combining a constant stack -/

theorem combine_cons (f : Frame) (rest : List Frame) (cfg : Config) :
    combine (f :: rest) cfg =
      if (f :: rest).all (fun g => decide (shape g = shape f)) then
        .ok ⟨combinedData cfg (f :: rest), f.meta⟩
      else .error .shapeMismatch := rfl

theorem combine_replicate (f : Frame) (n : Nat) (cfg : Config) (hn : 0 < n)
    (hf : Rect f) :
    combine (List.replicate n f) cfg = .ok ⟨f.data, f.meta⟩ := by
  obtain ⟨m, rfl⟩ : ∃ m, n = m + 1 := ⟨n - 1, by omega⟩
  rw [List.replicate_succ]
  rw [combine_cons, if_pos]
  · have hdata : combinedData cfg (f :: List.replicate m f) = f.data := by
      unfold combinedData
      have hsample : ∀ i j : Nat,
          clipPixel cfg (sampleAt (f :: List.replicate m f) i j) =
            (f.data.getD i []).getD j 0 := by
        intro i j
        rw [← List.replicate_succ, sampleAt_replicate]
        exact clipPixel_replicate (by omega) cfg _
      have hrow : ∀ i : Nat,
          rowAt cfg (f :: List.replicate m f) (ncols f) i =
            (List.range (ncols f)).map (fun j => (f.data.getD i []).getD j 0) := by
        intro i
        unfold rowAt
        exact List.map_congr_left (fun j _ => hsample i j)
      calc (List.range f.data.length).map
            (fun i => rowAt cfg (f :: List.replicate m f) (ncols f) i)
          = (List.range f.data.length).map
            (fun i => (List.range (ncols f)).map
              (fun j => (f.data.getD i []).getD j 0)) :=
            List.map_congr_left (fun i _ => hrow i)
        _ = f.data := map_range_rows f.data (ncols f) hf
    rw [hdata]
  · apply List.all_eq_true.2
    intro g hg
    have : g = f := by
      rcases List.mem_cons.1 hg with h | h
      · exact h
      · exact List.eq_of_mem_replicate h
    rw [this]
    simp

/-! ### Monotonicity of the rejection window in the thresholds -/

theorem rejected_of_rejected_wide {c d : Config} (hcen : d.center = c.center)
    (hdev : d.dev = c.dev) (h0l : 0 ≤ c.low) (h0h : 0 ≤ c.high)
    (hl : c.low ≤ d.low) (hh : c.high ≤ d.high) {l : List ℚ} {v : ℚ}
    (h : rejected d l v = true) : rejected c l v = true := by
  unfold rejected at h ⊢
  rw [hcen, hdev] at h
  cases hcd : c.dev with
  | madStd =>
      rw [hcd] at h
      simp only [Bool.or_eq_true, decide_eq_true_eq] at h ⊢
      have hm := madStd_nonneg l
      rcases h with h | h
      · exact Or.inl (by nlinarith [mul_le_mul_of_nonneg_right hl hm])
      · exact Or.inr (by nlinarith [mul_le_mul_of_nonneg_right hh hm])
  | std =>
      rw [hcd] at h
      simp only [Bool.or_eq_true, Bool.and_eq_true, decide_eq_true_eq] at h ⊢
      have hv := variance_nonneg l
      rcases h with ⟨h1, h2⟩ | ⟨h1, h2⟩
      · exact Or.inl ⟨h1, by nlinarith [pow_le_pow_left₀ h0l hl 2]⟩
      · exact Or.inr ⟨h1, by nlinarith [pow_le_pow_left₀ h0h hh 2]⟩

theorem length_retained_le {c d : Config} (hcen : d.center = c.center)
    (hdev : d.dev = c.dev) (h0l : 0 ≤ c.low) (h0h : 0 ≤ c.high)
    (hl : c.low ≤ d.low) (hh : c.high ≤ d.high) (l : List ℚ) :
    (retainedVals c l).length ≤ (retainedVals d l).length := by
  unfold retainedVals
  apply List.Sublist.length_le
  apply List.monotone_filter_right
  intro a ha
  simp only [Bool.not_eq_true'] at ha ⊢
  cases hda : rejected d l a with
  | false => rfl
  | true =>
      have := rejected_of_rejected_wide hcen hdev h0l h0h hl hh hda
      rw [this] at ha
      exact absurd ha (by simp)

/-! ### Chunked evaluation agrees with the direct evaluation -/

theorem combinedData_cons (cfg : Config) (f : Frame) (rest : List Frame) :
    combinedData cfg (f :: rest) =
      (List.range f.data.length).map (fun i => rowAt cfg (f :: rest) (ncols f) i) := rfl

theorem combineChunked_cons (f : Frame) (rest : List Frame) (cfg : Config) (k : Nat) :
    combineChunked (f :: rest) cfg k =
      if (f :: rest).all (fun g => decide (shape g = shape f)) then
        .ok ⟨chunkRows cfg (f :: rest) (ncols f) k 0 f.data.length, f.meta⟩
      else .error .shapeMismatch := rfl

theorem chunkRows_eq (cfg : Config) (stack : List Frame) (c k : Nat) (hk : k ≠ 0) :
    ∀ rem lo, chunkRows cfg stack c k lo rem =
      (List.range rem).map (fun i => rowAt cfg stack c (lo + i)) := by
  intro rem
  induction rem using Nat.strong_induction_on with
  | _ rem ih =>
      intro lo
      rw [chunkRows]
      by_cases h0 : rem = 0
      · subst h0
        simp
      · rw [dif_neg (by push_neg; exact ⟨h0, hk⟩)]
        have hsplit : List.range rem =
            List.range (min k rem) ++
              (List.range (rem - min k rem)).map (min k rem + ·) := by
          rw [← List.range_add]
          congr 1
          omega
        rw [hsplit, List.map_append, List.map_map]
        congr 1
        rw [ih (rem - min k rem) (by omega) (lo + min k rem)]
        apply List.map_congr_left
        intro i _
        simp only [Function.comp_apply]
        congr 1
        omega

/-! ### Claim theorems -/

/-- C1 (code bug): the specified rejection — reject exactly the values
outside the mad_std window around the median, output the mean of the
rest — governs the Example 1 invocation, but not the Example 2 invocation:
cell 15 misspells the keyword as `signma_clip_dev_func`, which `combine`
does not recognize, so Example 2's dispersion estimator stays at the
default standard deviation.  At the stack of three 1×1 frames with values
0, 0, 100 and thresholds 5/5, the mad_std window rejects 100 (Example 1
outputs 0) while Example 2 retains it and outputs 100/3. -/
theorem example2_not_mad_std_rejection :
    cfgExample2.dev ≠ DevFunc.madStd ∧
    combine [⟨[[0]], []⟩, ⟨[[0]], []⟩, ⟨[[100]], []⟩] cfgExample1 =
      .ok ⟨[[0]], []⟩ ∧
    combine [⟨[[0]], []⟩, ⟨[[0]], []⟩, ⟨[[100]], []⟩] cfgExample2 =
      .ok ⟨[[100 / 3]], []⟩ :=
  ⟨by decide, by with_unfolding_all decide, by with_unfolding_all decide⟩

/-- C2 (code bug): the two invocations do not configure the same
combination function — Example 2's misspelled `signma_clip_dev_func`
leaves its dispersion estimator at the default standard deviation — and
on the stack of three 1×1 frames with values 0, 0, 50 the two invocations
produce different output arrays (0 versus 50/3). -/
theorem example1_example2_differ :
    cfgExample1 ≠ cfgExample2 ∧
    combine [⟨[[0]], []⟩, ⟨[[0]], []⟩, ⟨[[50]], []⟩] cfgExample1 ≠
      combine [⟨[[0]], []⟩, ⟨[[0]], []⟩, ⟨[[50]], []⟩] cfgExample2 :=
  ⟨by decide, by with_unfolding_all decide⟩

/-- C3: every combination run of the notebook (combine followed by the
`meta['combined'] = True` tagging of cells 9 and 15) yields a frame whose
metadata resolves the combined-provenance key to true, on top of the
canonical input's metadata. -/
theorem combineAndTag_meta_combined (stack : List Frame) (cfg : Config)
    (out : Frame) (h : combineAndTag stack cfg = .ok out) :
    out.meta.lookup "combined" = some true := by
  unfold combineAndTag at h
  cases hc : combine stack cfg with
  | error e => rw [hc] at h; simp [Except.map] at h
  | ok g =>
      rw [hc] at h
      simp only [Except.map, Except.ok.injEq] at h
      rw [← h]
      simp [setCombinedTrue, List.lookup]

/-- Witness for C3 at a concrete single-frame run. -/
theorem combineAndTag_meta_combined_witness :
    (Frame.meta ⟨[[1]], [("combined", true)]⟩).lookup "combined" = some true :=
  combineAndTag_meta_combined [⟨[[1]], []⟩] cfgExample1
    ⟨[[1]], [("combined", true)]⟩ (by with_unfolding_all decide)

theorem shape_mk_combinedData (cfg : Config) (g : Frame) (t : List Frame)
    (m : List (String × Bool)) :
    shape ⟨combinedData cfg (g :: t), m⟩ = shape g := by
  unfold shape ncols
  simp only [combinedData_cons]
  cases hd : g.data with
  | nil => simp [hd]
  | cons r rt =>
      simp [hd, List.range_succ_eq_map, rowAt, ncols]

/-- C4: a successful combine of a stack returns a frame whose array shape
equals the shape of every frame in the stack. -/
theorem combine_preserves_shape (stack : List Frame) (cfg : Config)
    (out f : Frame) (hok : combine stack cfg = .ok out) (hf : f ∈ stack) :
    shape out = shape f := by
  cases stack with
  | nil => simp at hf
  | cons g t =>
      rw [combine_cons] at hok
      by_cases hall : ((g :: t).all fun x => decide (shape x = shape g)) = true
      · rw [if_pos hall] at hok
        have hout : out = ⟨combinedData cfg (g :: t), g.meta⟩ :=
          (Except.ok.injEq _ _ ▸ hok).symm
        have hfg : shape f = shape g :=
          of_decide_eq_true (List.all_eq_true.1 hall f hf)
        rw [hout, hfg]
        exact shape_mk_combinedData cfg g t g.meta
      · rw [if_neg hall] at hok
        cases hok

/-- Witness for C4 on a concrete two-frame stack of 1×2 frames. -/
theorem combine_preserves_shape_witness :
    shape ⟨[[2, 3]], []⟩ = shape ⟨[[3, 4]], []⟩ :=
  combine_preserves_shape [⟨[[1, 2]], []⟩, ⟨[[3, 4]], []⟩] cfgExample1
    ⟨[[2, 3]], []⟩ ⟨[[3, 4]], []⟩ (by with_unfolding_all decide) (by decide)

/-- C5: combining a single-frame stack does not fail and returns the
input frame's pixel array unchanged (the degenerate no-rejection case). -/
theorem combine_single_frame (f : Frame) (cfg : Config) (hf : Rect f) :
    combine [f] cfg = .ok ⟨f.data, f.meta⟩ := by
  have h := combine_replicate f 1 cfg (by omega) hf
  simpa using h

/-- Witness for C5 at a concrete 1×2 frame. -/
theorem combine_single_frame_witness :
    combine [⟨[[3, 4]], []⟩] cfgExample1 = .ok ⟨[[3, 4]], []⟩ :=
  combine_single_frame ⟨[[3, 4]], []⟩ cfgExample1 (by decide)

/-- C6: combining a stack of `n` pixel-identical frames returns that
constant frame exactly, and at every position the rejection step retains
the whole sample. -/
theorem combine_constant_stack (f : Frame) (n : Nat) (cfg : Config)
    (hn : 0 < n) (hf : Rect f) :
    combine (List.replicate n f) cfg = .ok ⟨f.data, f.meta⟩ ∧
    ∀ i j : Nat,
      retainedVals cfg (sampleAt (List.replicate n f) i j) =
        sampleAt (List.replicate n f) i j := by
  refine ⟨combine_replicate f n cfg hn hf, fun i j => ?_⟩
  rw [sampleAt_replicate]
  exact retainedVals_replicate hn cfg _

/-- Witness for C6 at a stack of three identical 1×1 frames. -/
theorem combine_constant_stack_witness :
    combine (List.replicate 3 (⟨[[7]], []⟩ : Frame)) cfgExample1 =
      .ok ⟨[[7]], []⟩ ∧
    retainedVals cfgExample1
        (sampleAt (List.replicate 3 (⟨[[7]], []⟩ : Frame)) 0 0) =
      sampleAt (List.replicate 3 (⟨[[7]], []⟩ : Frame)) 0 0 :=
  ⟨(combine_constant_stack ⟨[[7]], []⟩ 3 cfgExample1 (by decide) (by decide)).1,
   (combine_constant_stack ⟨[[7]], []⟩ 3 cfgExample1 (by decide) (by decide)).2 0 0⟩

/-- C7: widening both thresholds (same central and dispersion estimators)
never decreases the number of sample values retained at any pixel
position of any stack. -/
theorem retained_count_mono (stack : List Frame) (i j : Nat) (c d : Config)
    (hcen : d.center = c.center) (hdev : d.dev = c.dev)
    (h0l : 0 ≤ c.low) (h0h : 0 ≤ c.high)
    (hl : c.low ≤ d.low) (hh : c.high ≤ d.high) :
    (retainedVals c (sampleAt stack i j)).length ≤
      (retainedVals d (sampleAt stack i j)).length :=
  length_retained_le hcen hdev h0l h0h hl hh _

/-- Witness for C7: thresholds 5/5 versus 7/6 on the 0, 0, 100 stack. -/
theorem retained_count_mono_witness :
    (retainedVals cfgExample1
        (sampleAt [⟨[[0]], []⟩, ⟨[[0]], []⟩, ⟨[[100]], []⟩] 0 0)).length ≤
      (retainedVals ⟨7, 6, .median, .madStd⟩
        (sampleAt [⟨[[0]], []⟩, ⟨[[0]], []⟩, ⟨[[100]], []⟩] 0 0)).length :=
  retained_count_mono [⟨[[0]], []⟩, ⟨[[0]], []⟩, ⟨[[100]], []⟩] 0 0
    cfgExample1 ⟨7, 6, .median, .madStd⟩ rfl rfl (by norm_num [cfgExample1])
    (by norm_num [cfgExample1]) (by norm_num [cfgExample1])
    (by norm_num [cfgExample1])

/-- C8: for every stack and configuration, evaluating the combination in
row chunks of any positive size (the memory-limited strategy) returns
exactly the same result as the direct full-stack evaluation. -/
theorem combineChunked_eq_combine (stack : List Frame) (cfg : Config)
    (k : Nat) (hk : 0 < k) :
    combineChunked stack cfg k = combine stack cfg := by
  cases stack with
  | nil => rfl
  | cons f rest =>
      rw [combineChunked_cons, combine_cons]
      by_cases hall : ((f :: rest).all fun g => decide (shape g = shape f)) = true
      · rw [if_pos hall, if_pos hall]
        have hdata :
            chunkRows cfg (f :: rest) (ncols f) k 0 f.data.length =
              combinedData cfg (f :: rest) := by
          rw [chunkRows_eq cfg (f :: rest) (ncols f) k (by omega),
            combinedData_cons]
          apply List.map_congr_left
          intro i _
          rw [Nat.zero_add]
        rw [hdata]
      · rw [if_neg hall, if_neg hall]

/-- Witness for C8 with chunk size 1 on a three-frame stack. -/
theorem combineChunked_eq_combine_witness :
    combineChunked [⟨[[0]], []⟩, ⟨[[0]], []⟩, ⟨[[50]], []⟩] cfgExample1 1 =
      combine [⟨[[0]], []⟩, ⟨[[0]], []⟩, ⟨[[50]], []⟩] cfgExample1 :=
  combineChunked_eq_combine [⟨[[0]], []⟩, ⟨[[0]], []⟩, ⟨[[50]], []⟩]
    cfgExample1 1 (by decide)

/-- C9: a stack holding two frames of different array shapes makes
combine fail with the shape-mismatch error, with no partial result. -/
theorem combine_shape_mismatch (stack : List Frame) (cfg : Config)
    (f g : Frame) (hf : f ∈ stack) (hg : g ∈ stack)
    (hne : shape f ≠ shape g) :
    combine stack cfg = .error .shapeMismatch := by
  cases stack with
  | nil => simp at hf
  | cons a t =>
      have hcond : ¬(((a :: t).all fun x => decide (shape x = shape a)) = true) := by
        intro hall
        have h1 := of_decide_eq_true (List.all_eq_true.1 hall f hf)
        have h2 := of_decide_eq_true (List.all_eq_true.1 hall g hg)
        exact hne (h1.trans h2.symm)
      rw [combine_cons, if_neg hcond]

/-- Witness for C9: a 2×2 frame together with a 1×1 frame. -/
theorem combine_shape_mismatch_witness :
    combine [⟨[[1, 2], [3, 4]], []⟩, ⟨[[9]], []⟩] cfgExample1 =
      .error .shapeMismatch :=
  combine_shape_mismatch [⟨[[1, 2], [3, 4]], []⟩, ⟨[[9]], []⟩] cfgExample1
    ⟨[[1, 2], [3, 4]], []⟩ ⟨[[9]], []⟩ (by decide) (by decide) (by decide)

/-- C10: the empty stack makes combine fail with the empty-stack error;
no Combined Frame is returned. -/
theorem combine_empty_stack (cfg : Config) :
    combine [] cfg = .error .emptyStack := rfl
